import Mathlib

/-!
Verification of the alternating tree-regularization training program
(`main.py`, `utils.py`).

The development shallowly embeds the program's control flow and the pure
parts of its data manipulation:

* the epoch scheduler of `main.py` (lines 119-269) becomes a step function
  `epochStep` on an explicit state record `SchedState`, iterated by
  `runEpochs`, with ghost fields recording retrain events and every
  invocation of a loss criterion;
* `params_to_1D_vector` (main.py lines 60-65) is embedded over dual
  numbers so that the effect of `param.data` (detaching from the autograd
  graph) on derivatives is visible;
* `augment_data_with_dirichlet` / `augment_data_with_gaussian`
  (utils.py lines 245-336) become pure functions that thread the primary
  model's parameter state explicitly, so in-place mutation is observable;
* `post_pruning` (utils.py lines 110-149) is embedded over rationals.

Quantities produced by repository modules that are not part of the two
source files (the APL estimator of `models.py`/`decision_tree_utils.py`,
the random draws of numpy, the cross-validation scores of scikit-learn)
enter as oracle arguments.
-/

namespace TreeReg

/-- The two loss criteria `main.py` can invoke for a batch step:
`mse` is `criterion = nn.MSELoss()` (main.py line 127) and
`treeReg present` is `criterion_tr = tr.Tree_Regularizer(...)`
(main.py line 128), tagged with whether the `surrogate_model`
reference passed to it was present (not `None`) at the call. -/
inductive LossCall where
  | mse : LossCall
  | treeReg (surrogatePresent : Bool) : LossCall
deriving DecidableEq, Repr

/-- State of the training loop of `main.py` (lines 126-231).

`countdown` is `input_batch_size_surrogate_training`; `buffer` is
`input_data_surrogate_training` (we record the 1-indexed epoch number of
each appended parameter snapshot, since only count and order matter to
the scheduler); `apls` is `APLs`; `trainingLoss` records one entry per
`training_loss.append` (again by epoch number); `surrogateTrained` is
`surrogate_model_trained` and `surrogatePresent` says whether
`surrogate_model` is not `None`.  `retrainEpochs` and `lossCalls` are
ghost instrumentation: the 1-indexed epochs at which the surrogate
retrain branch ran, and the sequence of loss-criterion invocations. -/
structure SchedState where
  countdown : Int
  buffer : List Nat
  apls : List Nat
  trainingLoss : List Nat
  surrogateTrained : Bool
  surrogatePresent : Bool
  retrainEpochs : List Nat
  lossCalls : List LossCall
deriving DecidableEq, Repr

/-- Initial state before the epoch loop: `input_batch_size_surrogate_training
= args.sb` (main.py line 122); `surrogate_model = None`,
`surrogate_model_trained = False` (lines 130-131); empty buffers
(lines 147-150). -/
def initState (sb : Int) : SchedState :=
  { countdown := sb
    buffer := []
    apls := []
    trainingLoss := []
    surrogateTrained := false
    surrogatePresent := false
    retrainEpochs := []
    lossCalls := [] }

/-- One iteration of `for epoch in range(num_epochs)` (main.py lines
152-228).  `sb` is `args.sb` (used by the reset at line 228), `b` the
number of mini-batches delivered by `data_train_loader`, `epoch` the
0-based loop index.

If `input_batch_size_surrogate_training > 0` (line 156): one pass over
the batches, each selecting `criterion_tr` when `surrogate_model_trained`
else `criterion` (lines 165-169); then append the parameter snapshot and
APL (lines 176-182), append the mean loss (line 185), decrement the
countdown (line 187).

Otherwise (lines 188-228): train the surrogate on the buffer, set
`surrogate_model` and `surrogate_model_trained = True` (lines 202-204),
run one extra pass over all batches with `criterion_tr` (lines 208-220),
clear the buffers (lines 222-223), append the mean loss (line 227) and
reset the countdown to `args.sb` (line 228). -/
def epochStep (sb : Int) (b : Nat) (epoch : Nat) (s : SchedState) : SchedState :=
  if 0 < s.countdown then
    { s with
      lossCalls := s.lossCalls ++
        List.replicate b
          (if s.surrogateTrained then LossCall.treeReg s.surrogatePresent
           else LossCall.mse)
      buffer := s.buffer ++ [epoch + 1]
      apls := s.apls ++ [epoch + 1]
      trainingLoss := s.trainingLoss ++ [epoch + 1]
      countdown := s.countdown - 1 }
  else
    { s with
      surrogatePresent := true
      surrogateTrained := true
      lossCalls := s.lossCalls ++ List.replicate b (LossCall.treeReg true)
      buffer := []
      apls := []
      trainingLoss := s.trainingLoss ++ [epoch + 1]
      countdown := sb
      retrainEpochs := s.retrainEpochs ++ [epoch + 1] }

/-- The state after the first `e` iterations of the epoch loop of
`main.py` (line 152), starting from `initState sb`, with `b` mini-batches
per pass. -/
def runEpochs (sb : Int) (b : Nat) : Nat → SchedState
  | 0 => initState sb
  | e + 1 => epochStep sb b e (runEpochs sb b e)

/-- The evaluation phase of `main.py` (lines 238-269): after the epoch
loop, one pass over `data_train_loader` (`bTrain` batches) and one over
`data_test_loader` (`bTest` batches), each batch invoking `criterion_tr`
with the current `surrogate_model` unconditionally (lines 253 and 267) —
whether or not a surrogate was ever trained. -/
def testPhase (bTrain bTest : Nat) (s : SchedState) : SchedState :=
  { s with
    lossCalls := s.lossCalls ++
      List.replicate (bTrain + bTest) (LossCall.treeReg s.surrogatePresent) }

/-- A whole run of `main`: `e` training epochs followed by the evaluation
phase. -/
def fullRun (sb : Int) (b bTest : Nat) (e : Nat) : SchedState :=
  testPhase b bTest (runEpochs sb b e)

/-! ### Dual-number embedding of `params_to_1D_vector` (main.py lines 60-65)

A torch scalar participating in autograd is modelled as a dual number
carrying its value and its derivative with respect to one fixed primary
weight.  Accessing `.data` on a tensor yields the same values but severed
from the computation graph: its derivative contribution is zero. -/

/-- A scalar as seen by autograd: its value and its derivative with
respect to a fixed primary-model weight. -/
structure Dual where
  val : ℚ
  dgrad : ℚ
deriving DecidableEq, Repr

/-- The `.data` accessor of a torch tensor entry: same value, detached
from the autograd graph (zero derivative). -/
def tensorData (d : Dual) : Dual := ⟨d.val, 0⟩

/-- `params_to_1D_vector` (main.py lines 60-65): for each parameter
tensor appends `torch.flatten(param.data)` and concatenates.  A parameter
tensor is modelled as its flattened list of scalars; `torch.cat` is list
concatenation.  Crucially the source reads `param.data`, so every entry
passes through `tensorData`. -/
def params_to_1D_vector (model_parameters : List (List Dual)) : List Dual :=
  (model_parameters.map (fun param => param.map tensorData)).flatten

/-- Dual-number addition (sum rule). -/
def dualAdd (a b : Dual) : Dual := ⟨a.val + b.val, a.dgrad + b.dgrad⟩

/-- Dual-number multiplication (product rule). -/
def dualMul (a b : Dual) : Dual := ⟨a.val * b.val, a.val * b.dgrad + a.dgrad * b.val⟩

/-- A constant scalar: zero derivative. -/
def dualConst (c : ℚ) : Dual := ⟨c, 0⟩

/-- Sum of a list of autograd scalars. -/
def dualSum (l : List Dual) : Dual := l.foldl dualAdd (dualConst 0)

/-- A linear surrogate regressor `v ↦ Σ wsᵢ · vᵢ` evaluated under
autograd: the simplest differentiable `surrogate.predict`, used to
exhibit what gradient the optimizer receives from the surrogate term. -/
def linearSurrogate (ws : List ℚ) (v : List Dual) : Dual :=
  dualSum (List.zipWith (fun c x => dualMul (dualConst c) x) ws v)

/-- The regularization summand of `criterion_tr` (main.py line 166 with
`tr.Tree_Regularizer(regularization_strength)`, line 128):
`regularization_strength * surrogate.predict(parameter_vector)` where the
parameter vector is produced by `params_to_1D_vector`. -/
def surrogateTerm (rs : ℚ) (ws : List ℚ) (model_parameters : List (List Dual)) : Dual :=
  dualMul (dualConst rs) (linearSurrogate ws (params_to_1D_vector model_parameters))

/-! ### Embedding of the data augmentation strategies (utils.py lines 245-336)

The primary model is its parameter vector; random draws (numpy Dirichlet
weights, Gaussian perturbations) and the APL estimator (`compute_APL`,
defined in `models.py`, outside the two source files) enter as oracle
arguments.  Both augmentation functions return, besides the observation
lists the Python code returns, the final state of the model variable that
was passed in, so that in-place mutation of the live model is observable. -/

/-- The primary network, reduced to the state the augmentation code can
touch: its parameter vector. -/
structure NetModel where
  params : List ℚ
deriving DecidableEq, Repr

/-- `model.vector_to_parameters(param)`: writes the vector into the
model's parameter tensors in place. -/
def vector_to_parameters (m : NetModel) (v : List ℚ) : NetModel :=
  { m with params := v }

/-- Scale a parameter vector by a mixture coefficient. -/
def scaleVec (c : ℚ) (v : List ℚ) : List ℚ := v.map (fun x => c * x)

/-- Componentwise vector addition. -/
def addVec (u v : List ℚ) : List ℚ := List.zipWith (fun a x => a + x) u v

/-- One row of `samples @ parameters` (utils.py line 274): the convex
mixture `Σ wᵢ · psᵢ` of the stacked parameter vectors with Dirichlet
weights `w`. -/
def convexCombo (w : List ℚ) (ps : List (List ℚ)) : List ℚ :=
  (List.zipWith scaleVec w ps).foldl addVec
    (List.replicate (ps.headD []).length 0)

/-- A vector is a convex combination of the rows of `ps`: some
nonnegative weight vector over the rows, summing to one, mixes to it. -/
def IsConvexCombo (v : List ℚ) (ps : List (List ℚ)) : Prop :=
  ∃ w : List ℚ, w.length = ps.length ∧ (∀ c ∈ w, 0 ≤ c) ∧ w.sum = 1 ∧
    v = convexCombo w ps

/-- One iteration of the loop of `augment_data_with_dirichlet`
(utils.py lines 279-284): `model.vector_to_parameters(param)` is called
on the threaded model state itself, the APL is evaluated on it, and the
synthetic vector and APL are appended. -/
def dirichletStep (apl : NetModel → ℚ)
    (st : (List (List ℚ) × List ℚ) × NetModel) (p : List ℚ) :
    (List (List ℚ) × List ℚ) × NetModel :=
  let m := vector_to_parameters st.2 p
  ((st.1.1 ++ [p], st.1.2 ++ [apl m]), m)

/-- `augment_data_with_dirichlet` (utils.py lines 245-290).  `samples` is
the drawn weight matrix `np.random.dirichlet(alpha, num_new_samples)`
(one row per requested synthetic sample), `parameters` the stacked
buffered parameter vectors, `model` the primary model passed in, `apl`
the `compute_APL` estimator.  The loop (lines 279-284) calls
`model.vector_to_parameters(param)` on the *passed-in model itself* and
evaluates the APL on it; the embedding threads that model state and
returns it alongside `(parameters_new, APLs_new)`. -/
def augment_data_with_dirichlet (samples parameters : List (List ℚ))
    (model : NetModel) (apl : NetModel → ℚ) :
    (List (List ℚ) × List ℚ) × NetModel :=
  let parametersSynth := samples.map (fun w => convexCombo w parameters)
  parametersSynth.foldl (dirichletStep apl) (([], []), model)

/-- One iteration of the loop of `augment_data_with_gaussian` (utils.py
lines 319-334): the passed model is deep-copied (line 321), the copy's
parameters are overwritten with the Gaussian draw of this iteration, and
the copy's parameter vector and APL are recorded; the threaded model
state itself is passed on untouched. -/
def gaussianStep (draws : Nat → List ℚ) (apl : NetModel → ℚ)
    (st : (List (List ℚ) × List ℚ) × NetModel) (i : Nat) :
    (List (List ℚ) × List ℚ) × NetModel :=
  let modelCopy := vector_to_parameters st.2 (draws i)
  ((st.1.1 ++ [modelCopy.params], st.1.2 ++ [apl modelCopy]), st.2)

/-- `augment_data_with_gaussian` (utils.py lines 293-336).  `draws i`
stands for the `np.random.normal(param, 0.1 * |param|)` values of lines
328-329 at iteration `i`.  The final model state is returned alongside
the observations, as for the Dirichlet strategy. -/
def augment_data_with_gaussian (draws : Nat → List ℚ) (model : NetModel)
    (apl : NetModel → ℚ) (size : Nat) :
    (List (List ℚ) × List ℚ) × NetModel :=
  (List.range size).foldl (gaussianStep draws apl) (([], []), model)

/-- The scalar hyperparameters `main.py` reads from the parsed arguments
(lines 119-124): `args.ep`, `args.batch`, `args.sb` (all ints as parsed
by argparse, lines 393-445). -/
structure Config where
  ep : Int
  batch : Int
  sb : Int
deriving DecidableEq, Repr

/-- The error the spec's startup validation is supposed to raise. -/
inductive ConfigurationError where
  | nonPositiveEpochCount : ConfigurationError
  | nonPositiveBatchSize : ConfigurationError
  | intervalTooSmall : ConfigurationError
deriving DecidableEq, Repr

/-- What `main.py` does with the parsed configuration before training:
nothing.  Between `args = parser.parse_args()` (line 453) and the
training loop (line 152), the hyperparameters are read (lines 119-124)
and used directly — there is no validation and no `ConfigurationError`
anywhere in the source, so no configuration ever yields an error. -/
def startupValidation (cfg : Config) : Option ConfigurationError := none

/-- The training loop exactly as `main` runs it on a configuration:
`for epoch in range(num_epochs)` iterates `max ep 0` times (`range` of a
non-positive int is empty) with interval `args.sb`; `b` is the number of
mini-batches the train loader yields. -/
def mainRun (cfg : Config) (b : Nat) : SchedState :=
  runEpochs cfg.sb b cfg.ep.toNat

/-! ### Embedding of `post_pruning` (utils.py lines 110-149)

The scikit-learn collaborators enter as oracles: `ccpAlphas` is
`path.ccp_alphas` from `cost_complexity_pruning_path`, and `cvScores a`
is the list of per-fold `neg_mean_squared_error` scores returned by
`cross_val_score` for `ccp_alpha = a`.  `np.std` (population standard
deviation) appears through its square: since every per-alpha mean MSE is
at least the minimum, `mse ≤ min + std` holds iff `(mse - min)² ≤
variance`, which keeps the definition inside ℚ and decidable. -/

/-- Arithmetic mean of a list of rationals (`np.mean`); `0` on the empty
list (where the source never evaluates it). -/
def listMean (l : List ℚ) : ℚ := l.sum / l.length

/-- Population variance (`np.std` squared, ddof = 0). -/
def listVariance (l : List ℚ) : ℚ :=
  listMean (l.map (fun x => (x - listMean l) ^ 2))

/-- Minimum of a list (`np.min`); `0` on the empty list. -/
def listMin : List ℚ → ℚ
  | [] => 0
  | x :: xs => xs.foldl min x

/-- Maximum of a list (`np.max`); `0` on the empty list. -/
def listMax : List ℚ → ℚ
  | [] => 0
  | x :: xs => xs.foldl max x

/-- The per-alpha cross-validated mean squared error
`fold_mse = -np.mean(scores, 1)` (utils.py line 140). -/
def foldMse (cvScores : ℚ → List ℚ) (a : ℚ) : ℚ := -(listMean (cvScores a))

/-- The boolean mask `fold_mse <= np.min(fold_mse) + np.std(fold_mse)`
applied to `ccp_alphas` (utils.py line 144): the alphas whose
cross-validated mean squared error is within one standard deviation of
the minimum.  Since every `fold_mse` entry is at least the minimum and
the standard deviation is nonnegative, `mse ≤ min + std` holds iff
`(mse - min)² ≤ variance`, the form used here. -/
def withinOneStd (ccpAlphas : List ℚ) (cvScores : ℚ → List ℚ) : List ℚ :=
  let alphas := ccpAlphas.dropLast
  let mses := alphas.map (foldMse cvScores)
  alphas.filter
    (fun a => (foldMse cvScores a - listMin mses) ^ 2 ≤ listVariance mses)

/-- `post_pruning` (utils.py lines 110-149): drop the last alpha of the
pruning path (line 131); if any remain, select via the
one-standard-error rule `np.max(ccp_alphas[fold_mse <= np.min(fold_mse)
+ np.std(fold_mse)])` (line 144), else return `0.0` (line 149). -/
def post_pruning (ccpAlphas : List ℚ) (cvScores : ℚ → List ℚ) : ℚ :=
  if ccpAlphas.dropLast = [] then 0
  else listMax (withinOneStd ccpAlphas cvScores)

/-- Unfolding lemma: one more epoch is one application of `epochStep`. -/
theorem runEpochs_succ (sb : Int) (b e : Nat) :
    runEpochs sb b (e + 1) = epochStep sb b e (runEpochs sb b e) := rfl

/-- Core counting invariant of the scheduler: after `e` epochs with
interval `sb ≥ 1`, the observation buffer holds `e mod (sb+1)` snapshots
and the countdown is `sb` minus that amount.  The macro-cycle of the loop
has length `sb + 1`: `sb` standard epochs filling the buffer, then one
retrain epoch clearing it. -/
theorem runEpochs_buffer_countdown (sb : Int) (b : Nat) (h : 1 ≤ sb) (e : Nat) :
    (runEpochs sb b e).buffer.length = e % (sb.toNat + 1) ∧
      (runEpochs sb b e).countdown = sb - (e % (sb.toNat + 1) : Nat) := by
  induction e with
  | zero => simp [runEpochs, initState]
  | succ e ih =>
    obtain ⟨hlen, hcd⟩ := ih
    have hN : ((sb.toNat : Int)) = sb := Int.toNat_of_nonneg (by omega)
    have hrlt : e % (sb.toNat + 1) < sb.toNat + 1 := Nat.mod_lt _ (by omega)
    have hsucc : (e + 1) % (sb.toNat + 1) =
        (e % (sb.toNat + 1) + 1) % (sb.toNat + 1) := by
      conv_lhs => rw [Nat.add_mod]
      have h1 : 1 % (sb.toNat + 1) = 1 := Nat.mod_eq_of_lt (by omega)
      rw [h1]
    rcases Nat.lt_or_ge (e % (sb.toNat + 1)) sb.toNat with hr | hr
    · have hpos : 0 < (runEpochs sb b e).countdown := by
        rw [hcd]; omega
      have hmod : (e + 1) % (sb.toNat + 1) = e % (sb.toNat + 1) + 1 := by
        rw [hsucc, Nat.mod_eq_of_lt (by omega)]
      rw [runEpochs_succ]
      unfold epochStep
      rw [if_pos hpos]
      refine ⟨by simp [hlen, hmod], ?_⟩
      simp only []
      rw [hcd, hmod]
      push_cast
      ring
    · have hreq : e % (sb.toNat + 1) = sb.toNat := by omega
      have hneg : ¬ (0 < (runEpochs sb b e).countdown) := by
        rw [hcd, hreq]; omega
      have hmod : (e + 1) % (sb.toNat + 1) = 0 := by
        rw [hsucc, hreq, Nat.mod_self]
      rw [runEpochs_succ]
      unfold epochStep
      rw [if_neg hneg]
      refine ⟨by simp [hmod], ?_⟩
      simp only []
      rw [hmod]
      simp

/-- In every reachable state, `surrogate_model_trained` holds exactly when
`surrogate_model` is present: both are set together at main.py lines
202-204 and never unset. -/
theorem runEpochs_flags (sb : Int) (b : Nat) (e : Nat) :
    (runEpochs sb b e).surrogateTrained = (runEpochs sb b e).surrogatePresent := by
  induction e with
  | zero => rfl
  | succ e ih =>
    rw [runEpochs_succ]
    unfold epochStep
    split <;> simp [ih]

/-- Within the training loop, `criterion_tr` is never invoked with an
absent surrogate: the standard branch only selects it when
`surrogate_model_trained` (main.py line 165), and the retrain branch
assigns the surrogate before its extra pass (lines 202-216). -/
theorem runEpochs_no_absent (sb : Int) (b : Nat) (e : Nat) :
    LossCall.treeReg false ∉ (runEpochs sb b e).lossCalls := by
  induction e with
  | zero => simp [runEpochs, initState]
  | succ e ih =>
    have hfl := runEpochs_flags sb b e
    rw [runEpochs_succ]
    unfold epochStep
    split
    · simp only [List.mem_append, List.mem_replicate]
      rintro (hmem | ⟨-, hEq⟩)
      · exact ih hmem
      · rcases hflag : (runEpochs sb b e).surrogateTrained with _ | _
        · rw [hflag] at hEq; simp at hEq
        · rw [hflag] at hEq
          rw [hflag] at hfl
          rw [← hfl] at hEq
          simp at hEq
    · simp only [List.mem_append, List.mem_replicate]
      rintro (hmem | ⟨-, hEq⟩)
      · exact ih hmem
      · simp at hEq

/-- A single epoch never resets `surrogate_model_trained`. -/
theorem epochStep_trained_mono (sb : Int) (b n : Nat) (s : SchedState)
    (h : s.surrogateTrained = true) : (epochStep sb b n s).surrogateTrained = true := by
  unfold epochStep; split <;> simp [h]

/-- A single epoch never resets the surrogate reference to absent. -/
theorem epochStep_present_mono (sb : Int) (b n : Nat) (s : SchedState)
    (h : s.surrogatePresent = true) : (epochStep sb b n s).surrogatePresent = true := by
  unfold epochStep; split <;> simp [h]

/-- `surrogate_model_trained` is monotone along the run. -/
theorem runEpochs_trained_mono (sb : Int) (b : Nat) (e e' : Nat) (h : e ≤ e')
    (ht : (runEpochs sb b e).surrogateTrained = true) :
    (runEpochs sb b e').surrogateTrained = true := by
  induction e' , h using Nat.le_induction with
  | base => exact ht
  | succ m hm ih => exact epochStep_trained_mono sb b m _ ih

/-- Surrogate presence is monotone along the run. -/
theorem runEpochs_present_mono (sb : Int) (b : Nat) (e e' : Nat) (h : e ≤ e')
    (ht : (runEpochs sb b e).surrogatePresent = true) :
    (runEpochs sb b e').surrogatePresent = true := by
  induction e' , h using Nat.le_induction with
  | base => exact ht
  | succ m hm ih => exact epochStep_present_mono sb b m _ ih

/-- Both branches of the epoch loop append exactly one entry to
`training_loss` (main.py lines 185 and 227). -/
theorem epochStep_trainingLoss (sb : Int) (b n : Nat) (s : SchedState) :
    (epochStep sb b n s).trainingLoss.length = s.trainingLoss.length + 1 := by
  unfold epochStep; split <;> simp

/-- After `e` epochs the training-loss series has exactly `e` entries. -/
theorem runEpochs_trainingLoss (sb : Int) (b e : Nat) :
    (runEpochs sb b e).trainingLoss.length = e := by
  induction e with
  | zero => rfl
  | succ e ih => rw [runEpochs_succ, epochStep_trainingLoss, ih]

/-! ### Claim C1 -/

/-- Claim C1, as stated, is false: with interval `N = 1`, after one
completed epoch the buffer holds one observation, yet one epoch has
passed since the (nonexistent) last retrain, `1 mod 1 = 0 ≠ 1`, and the
length is not strictly below `N = 1`. -/
theorem C1_counterexample :
    (runEpochs 1 1 1).buffer.length = 1 ∧ (1 : Nat) % 1 = 0 ∧
      ¬ ((runEpochs 1 1 1).buffer.length < 1) := by decide

/-- Claim C1 (amended): for interval `N ≥ 1`, after `e` completed epochs
the buffer length equals `e mod (N + 1)` — the scheduler's macro-cycle
is `N + 1` epochs: `N` standard epochs filling the buffer to length `N`
followed by one retrain epoch — so the length never exceeds `N`; and the
retrain (flush) epoch, entered when the countdown is exhausted, clears
the buffer. -/
theorem C1_buffer_invariant (sb : Int) (b e : Nat) (h : 1 ≤ sb) :
    (runEpochs sb b e).buffer.length = e % (sb.toNat + 1) ∧
    (runEpochs sb b e).buffer.length ≤ sb.toNat ∧
    ((runEpochs sb b e).countdown ≤ 0 → (runEpochs sb b (e + 1)).buffer = []) := by
  obtain ⟨hlen, hcd⟩ := runEpochs_buffer_countdown sb b h e
  refine ⟨hlen, ?_, ?_⟩
  · rw [hlen]
    exact Nat.le_of_lt_succ (Nat.mod_lt _ (by omega))
  · intro hle
    rw [runEpochs_succ]
    unfold epochStep
    rw [if_neg (by omega)]

/-- Witness for `C1_buffer_invariant` at interval 5, 12 epochs. -/
theorem C1_witness :
    (1 : Int) ≤ 5 ∧
      ((runEpochs 5 1 12).buffer.length = 12 % ((5 : Int).toNat + 1) ∧
       (runEpochs 5 1 12).buffer.length ≤ (5 : Int).toNat ∧
       ((runEpochs 5 1 12).countdown ≤ 0 → (runEpochs 5 1 13).buffer = [])) :=
  ⟨by norm_num, C1_buffer_invariant 5 1 12 (by norm_num)⟩

/-! ### Claim C2 -/

/-- Claim C2, as stated, is false: with interval 5 and 12 epochs the
buffer at the end of epoch 12 is empty, not of size 2 — epoch 12 itself
is the second retrain epoch, which flushes it. -/
theorem C2_counterexample :
    (runEpochs 5 1 12).buffer.length = 0 ∧
      ¬ ((runEpochs 5 1 12).buffer.length = 2) := by decide

/-- Claim C2 (amended): with interval 5 and 12 epochs, exactly two
surrogate-retrain events occur, during epoch 6 (after the first five
standard epochs) and during epoch 12 (after five further standard
epochs), and at the end of epoch 12 the observation buffer is empty,
regardless of the number of mini-batches per epoch. -/
theorem C2_two_retrains (b : Nat) :
    (runEpochs 5 b 12).retrainEpochs = [6, 12] ∧
    (runEpochs 5 b 12).retrainEpochs.length = 2 ∧
    (runEpochs 5 b 12).buffer = [] := by
  norm_num [runEpochs, epochStep, initState]

/-! ### Claim C3 -/

/-- Claim C3, as stated, is false: in a run of 3 epochs with interval 5,
no surrogate is ever trained, yet the evaluation phase after the
training loop (main.py lines 244-269) invokes the tree-regularized loss
unconditionally — here with an absent surrogate. -/
theorem C3_counterexample :
    LossCall.treeReg false ∈ (fullRun 5 1 1 3).lossCalls := by decide

/-- Claim C3 (amended): within the training loop the tree-regularized
loss is never invoked while the surrogate-presence flag is false, and
once the flag is true every subsequent standard-epoch batch step selects
the tree-regularized objective; the final evaluation phase, however,
invokes the tree-regularized loss unconditionally, including in runs in
which no surrogate was ever trained. -/
theorem C3_loss_selection (sb : Int) (b e : Nat) :
    LossCall.treeReg false ∉ (runEpochs sb b e).lossCalls ∧
    ((runEpochs sb b e).surrogateTrained = true →
      0 < (runEpochs sb b e).countdown →
      (runEpochs sb b (e + 1)).lossCalls
        = (runEpochs sb b e).lossCalls ++ List.replicate b (LossCall.treeReg true)) := by
  refine ⟨runEpochs_no_absent sb b e, ?_⟩
  intro ht hcd
  have hfl := runEpochs_flags sb b e
  rw [ht] at hfl
  rw [runEpochs_succ]
  unfold epochStep
  rw [if_pos hcd]
  simp [ht, hfl.symm]

/-- Witness for `C3_loss_selection`: after 2 epochs with interval 1 the
surrogate is trained and the countdown is positive, so epoch 3 is a
standard epoch whose two batch steps both use the tree-regularized
loss. -/
theorem C3_witness :
    (runEpochs 1 2 2).surrogateTrained = true ∧
    0 < (runEpochs 1 2 2).countdown ∧
    LossCall.treeReg false ∉ (runEpochs 1 2 2).lossCalls ∧
    (runEpochs 1 2 3).lossCalls
      = (runEpochs 1 2 2).lossCalls ++ List.replicate 2 (LossCall.treeReg true) :=
  ⟨by decide, by decide, (C3_loss_selection 1 2 2).1,
    (C3_loss_selection 1 2 2).2 (by decide) (by decide)⟩

/-! ### Claim C4 -/

/-- Claim C4: the surrogate-presence flag starts false and is monotone —
once `surrogate_model_trained` (or the surrogate reference) is set it is
never unset — hence it transitions false→true at most once and never
true→false. -/
theorem C4_monotone_switch (sb : Int) (b e e' : Nat) (h : e ≤ e') :
    (runEpochs sb b 0).surrogateTrained = false ∧
    (runEpochs sb b 0).surrogatePresent = false ∧
    ((runEpochs sb b e).surrogateTrained = true →
      (runEpochs sb b e').surrogateTrained = true) ∧
    ((runEpochs sb b e).surrogatePresent = true →
      (runEpochs sb b e').surrogatePresent = true) :=
  ⟨rfl, rfl, runEpochs_trained_mono sb b e e' h, runEpochs_present_mono sb b e e' h⟩

/-- Witness for `C4_monotone_switch` at interval 5, epochs 6 ≤ 12 (the
flag is in fact set at epoch 6 there). -/
theorem C4_witness :
    (6 : Nat) ≤ 12 ∧
    ((runEpochs 5 1 0).surrogateTrained = false ∧
     (runEpochs 5 1 0).surrogatePresent = false ∧
     ((runEpochs 5 1 6).surrogateTrained = true →
       (runEpochs 5 1 12).surrogateTrained = true) ∧
     ((runEpochs 5 1 6).surrogatePresent = true →
       (runEpochs 5 1 12).surrogatePresent = true)) :=
  ⟨by decide, C4_monotone_switch 5 1 6 12 (by decide)⟩

/-! ### Claim C9 -/

/-- Claim C9: with interval at least 1, every iteration of the epoch
loop — standard or retrain — appends exactly one mean-loss entry to the
training-loss series, so after `e` epochs the series has exactly `e`
entries and the scalar-logging loop over indices `0 .. e-1` (main.py
lines 230-231) stays in bounds. -/
theorem C9_loss_series (sb : Int) (b e : Nat) (h : 1 ≤ sb) :
    (runEpochs sb b e).trainingLoss.length = e ∧
    (∀ i, i < e → i < (runEpochs sb b e).trainingLoss.length) ∧
    (∀ (s : SchedState) (n : Nat),
      (epochStep sb b n s).trainingLoss.length = s.trainingLoss.length + 1) := by
  refine ⟨runEpochs_trainingLoss sb b e, ?_, fun s n => epochStep_trainingLoss sb b n s⟩
  intro i hi
  rw [runEpochs_trainingLoss]
  exact hi

/-- Witness for `C9_loss_series` at interval 2, 3 epochs. -/
theorem C9_witness :
    (1 : Int) ≤ 2 ∧
      ((runEpochs 2 1 3).trainingLoss.length = 3 ∧
       (∀ i, i < 3 → i < (runEpochs 2 1 3).trainingLoss.length) ∧
       (∀ (s : SchedState) (n : Nat),
         (epochStep 2 1 n s).trainingLoss.length = s.trainingLoss.length + 1)) :=
  ⟨by norm_num, C9_loss_series 2 1 3 (by norm_num)⟩

/-! ### Lemmas on the augmentation foldls -/

/-- Complete description of the Dirichlet augmentation loop: it returns
the synthetic vectors in order, their APLs evaluated on a model loaded
with exactly that vector, and leaves the threaded model holding the last
synthetic vector it loaded (or untouched if there was none). -/
theorem dirichletFold_spec (apl : NetModel → ℚ) (L : List (List ℚ)) :
    ∀ st : (List (List ℚ) × List ℚ) × NetModel,
      (L.foldl (dirichletStep apl) st).1.1 = st.1.1 ++ L ∧
      (L.foldl (dirichletStep apl) st).1.2
        = st.1.2 ++ L.map (fun p => apl ⟨p⟩) ∧
      (L.foldl (dirichletStep apl) st).2.params = L.getLastD st.2.params := by
  induction L with
  | nil => intro st; exact ⟨by simp, by simp, rfl⟩
  | cons p rest ih =>
    intro st
    rw [List.foldl_cons]
    obtain ⟨h1, h2, h3⟩ := ih (dirichletStep apl st p)
    refine ⟨?_, ?_, ?_⟩
    · rw [h1]; simp [dirichletStep]
    · rw [h2]; simp [dirichletStep, vector_to_parameters]
    · rw [h3, List.getLastD_cons]; rfl

/-- The Gaussian augmentation loop never writes the threaded model: only
per-iteration copies are mutated. -/
theorem gaussianFold_model (draws : Nat → List ℚ) (apl : NetModel → ℚ)
    (L : List Nat) :
    ∀ st : (List (List ℚ) × List ℚ) × NetModel,
      (L.foldl (gaussianStep draws apl) st).2 = st.2 := by
  induction L with
  | nil => intro st; rfl
  | cons i rest ih => intro st; rw [List.foldl_cons]; exact ih _

/-- Rows produced by scaling the stacked parameter vectors keep the
common row length. -/
theorem zipWith_scaleVec_length (d : Nat) :
    ∀ (w : List ℚ) (ps : List (List ℚ)), (∀ p ∈ ps, p.length = d) →
      ∀ v ∈ List.zipWith scaleVec w ps, v.length = d := by
  intro w
  induction w with
  | nil => intro ps _ v hv; simp at hv
  | cons c cs ih =>
    intro ps hd v hv
    cases ps with
    | nil => simp at hv
    | cons p rest =>
      rw [List.zipWith_cons_cons] at hv
      rcases List.mem_cons.mp hv with h | h
      · subst h; simp [scaleVec, hd p (by simp)]
      · exact ih rest (fun q hq => hd q (by simp [hq])) v h

/-- Summing vectors of a common length keeps that length. -/
theorem foldl_addVec_length (d : Nat) :
    ∀ (l : List (List ℚ)) (acc : List ℚ), (∀ v ∈ l, v.length = d) →
      acc.length = d → (l.foldl addVec acc).length = d := by
  intro l
  induction l with
  | nil => intro acc _ ha; exact ha
  | cons v rest ih =>
    intro acc hl ha
    rw [List.foldl_cons]
    refine ih _ (fun q hq => hl q (by simp [hq])) ?_
    simp [addVec, ha, hl v (by simp)]

/-- A convex mixture of the stacked parameter vectors has the common
parameter-vector length. -/
theorem convexCombo_length (w : List ℚ) (ps : List (List ℚ)) (d : Nat)
    (hne : ps ≠ []) (hd : ∀ p ∈ ps, p.length = d) :
    (convexCombo w ps).length = d := by
  unfold convexCombo
  refine foldl_addVec_length d _ _ (zipWith_scaleVec_length d w ps hd) ?_
  cases ps with
  | nil => exact absurd rfl hne
  | cons q qs => simp [hd q (by simp)]

/-! ### Claim C5 -/

/-- Claim C5, as stated, is false: the Dirichlet augmentation evaluates
each synthetic vector on the passed-in primary model itself — here a
model with parameters `[0]` is left holding the last synthetic vector
`[2]` after the call. -/
theorem C5_counterexample :
    (augment_data_with_dirichlet [[1]] [[2]] ⟨[0]⟩ (fun _ => 1)).2.params = [2] ∧
    ¬ ((augment_data_with_dirichlet [[1]] [[2]] ⟨[0]⟩ (fun _ => 1)).2.params
        = [0]) := by
  norm_num [augment_data_with_dirichlet, dirichletStep, convexCombo, scaleVec,
    addVec, vector_to_parameters]

/-- Claim C5 (amended): the Gaussian strategy evaluates each synthetic
vector on a deep copy and leaves the passed model unchanged, but the
Dirichlet strategy loads every synthetic vector into the live passed-in
model via `vector_to_parameters`, so after the call that model holds the
last synthetic vector (its original parameters only survive when no
synthetic vector was produced). -/
theorem C5_augmentation_frame (samples parameters : List (List ℚ))
    (model : NetModel) (apl : NetModel → ℚ) (draws : Nat → List ℚ) (size : Nat) :
    (augment_data_with_gaussian draws model apl size).2 = model ∧
    (augment_data_with_dirichlet samples parameters model apl).2.params
      = (samples.map (fun w => convexCombo w parameters)).getLastD model.params :=
  ⟨gaussianFold_model draws apl (List.range size) (([], []), model),
    (dirichletFold_spec apl (samples.map (fun w => convexCombo w parameters))
      (([], []), model)).2.2⟩

/-! ### Claim C6 -/

/-- Every entry of the vector built by `params_to_1D_vector` is
detached: the source flattens `param.data`, so the derivative of each
entry with respect to any primary weight is zero. -/
theorem params_to_1D_vector_dgrad (mp : List (List Dual)) :
    ∀ v ∈ params_to_1D_vector mp, v.dgrad = 0 := by
  intro v hv
  simp only [params_to_1D_vector, List.mem_flatten, List.mem_map] at hv
  obtain ⟨l, ⟨param, -, rfl⟩, hvl⟩ := hv
  obtain ⟨u, -, rfl⟩ := List.mem_map.mp hvl
  rfl

/-- Summing autograd scalars with zero derivative yields zero
derivative. -/
theorem foldl_dualAdd_dgrad (l : List Dual) :
    ∀ a : Dual, (∀ x ∈ l, x.dgrad = 0) → a.dgrad = 0 →
      (l.foldl dualAdd a).dgrad = 0 := by
  induction l with
  | nil => intro a _ ha; exact ha
  | cons x xs ih =>
    intro a h ha
    rw [List.foldl_cons]
    refine ih _ (fun y hy => h y (by simp [hy])) ?_
    simp [dualAdd, ha, h x (by simp)]

/-- Scaling autograd scalars of zero derivative by constants yields zero
derivatives. -/
theorem zipWith_dualMul_dgrad :
    ∀ (ws : List ℚ) (v : List Dual), (∀ x ∈ v, x.dgrad = 0) →
      ∀ y ∈ List.zipWith (fun c x => dualMul (dualConst c) x) ws v,
        y.dgrad = 0 := by
  intro ws
  induction ws with
  | nil => intro v _ y hy; simp at hy
  | cons c cs ih =>
    intro v hv y hy
    cases v with
    | nil => simp at hy
    | cons x xs =>
      rw [List.zipWith_cons_cons] at hy
      rcases List.mem_cons.mp hy with h | h
      · subst h; simp [dualMul, dualConst, hv x (by simp)]
      · exact ih xs (fun z hz => hv z (by simp [hz])) y h

/-- The surrogate regularization term built from `params_to_1D_vector`
carries zero derivative with respect to every primary weight: the
detach in `params_to_1D_vector` kills the gradient before the surrogate
sees it. -/
theorem surrogateTerm_dgrad_zero (rs : ℚ) (ws : List ℚ)
    (mp : List (List Dual)) : (surrogateTerm rs ws mp).dgrad = 0 := by
  have hlin : (linearSurrogate ws (params_to_1D_vector mp)).dgrad = 0 := by
    unfold linearSurrogate dualSum
    exact foldl_dualAdd_dgrad _ _
      (zipWith_dualMul_dgrad ws _ (params_to_1D_vector_dgrad mp)) rfl
  simp [surrogateTerm, dualMul, dualConst, hlin]

/-- Claim C6: the flattening `params_to_1D_vector` reads `param.data`
and therefore detaches the parameter vector from the computation graph:
every entry of the vector has zero derivative with respect to the
primary weights, so the regularization term
`regularization_strength × surrogate.predict(parameter_vector)`
contributes exactly zero gradient to the optimizer step — whereas the
same linear surrogate applied to the undetached weight (derivative 1)
would contribute derivative 1. -/
theorem C6_detached_gradient (mp : List (List Dual)) (v : Dual)
    (hv : v ∈ params_to_1D_vector mp) :
    v.dgrad = 0 ∧
    (∀ (rs : ℚ) (ws : List ℚ), (surrogateTerm rs ws mp).dgrad = 0) ∧
    (linearSurrogate [1] [⟨2, 1⟩]).dgrad = 1 :=
  ⟨params_to_1D_vector_dgrad mp v hv,
    fun rs ws => surrogateTerm_dgrad_zero rs ws mp,
    by norm_num [linearSurrogate, dualSum, dualMul, dualAdd, dualConst]⟩

/-- Witness for `C6_detached_gradient`: a single-weight model with
weight value 2 and derivative 1 with respect to itself. -/
theorem C6_witness :
    (⟨2, 0⟩ : Dual) ∈ params_to_1D_vector [[⟨2, 1⟩]] ∧
    (⟨2, 0⟩ : Dual).dgrad = 0 ∧
    (surrogateTerm 1 [1] [[⟨2, 1⟩]]).dgrad = 0 ∧
    (linearSurrogate [1] [⟨2, 1⟩]).dgrad = 1 :=
  ⟨by decide, (C6_detached_gradient [[⟨2, 1⟩]] ⟨2, 0⟩ (by decide)).1,
    (C6_detached_gradient [[⟨2, 1⟩]] ⟨2, 0⟩ (by decide)).2.1 1 [1],
    (C6_detached_gradient [[⟨2, 1⟩]] ⟨2, 0⟩ (by decide)).2.2⟩

/-! ### Claim C7 -/

/-- Claim C7, as stated, is false: the configuration with epoch count 0
(also batch size 0 and interval 1) is accepted without any
`ConfigurationError` — no validation exists — and the run then simply
performs zero training epochs. -/
theorem C7_counterexample :
    startupValidation ⟨0, 0, 1⟩ = none ∧
    mainRun ⟨0, 0, 1⟩ 1 = initState 1 := ⟨rfl, rfl⟩

/-- Claim C7 (amended): `main.py` performs no startup validation — no
configuration ever raises a `ConfigurationError` — and with a
non-positive epoch count the training loop executes zero iterations (the
run keeps its initial state) instead of failing fast. -/
theorem C7_no_validation (cfg : Config) (b : Nat) :
    startupValidation cfg = none ∧
    (cfg.ep ≤ 0 → mainRun cfg b = initState cfg.sb) := by
  refine ⟨rfl, fun h => ?_⟩
  unfold mainRun
  rw [Int.toNat_of_nonpos h]
  rfl

/-- Witness for `C7_no_validation` at the defaults with epoch count 0. -/
theorem C7_witness :
    (0 : Int) ≤ 0 ∧
      (startupValidation ⟨0, 100, 25⟩ = none ∧
        mainRun ⟨0, 100, 25⟩ 1 = initState 25) :=
  ⟨by norm_num,
    (C7_no_validation ⟨0, 100, 25⟩ 1).1,
    (C7_no_validation ⟨0, 100, 25⟩ 1).2 (by norm_num)⟩

/-! ### Claim C8 -/

/-- Claim C8: for `k ≥ 1` stacked observations of a common length `d`
and a drawn weight matrix with one row per requested synthetic sample
(each row a probability vector over the `k` observations, as
`np.random.dirichlet` guarantees), the Dirichlet augmentation returns
exactly one synthetic observation per row; each synthetic parameter
vector is a convex combination of the originals — in particular of
length `d` — and each is paired with a nonnegative complexity value
(nonnegativity of the APL estimator per its contract). -/
theorem C8_dirichlet_augmentation (samples parameters : List (List ℚ))
    (model : NetModel) (apl : NetModel → ℚ) (d : Nat)
    (hne : parameters ≠ [])
    (hd : ∀ p ∈ parameters, p.length = d)
    (hw : ∀ w ∈ samples,
      w.length = parameters.length ∧ (∀ c ∈ w, 0 ≤ c) ∧ w.sum = 1)
    (hapl : ∀ m : NetModel, 0 ≤ apl m) :
    (augment_data_with_dirichlet samples parameters model apl).1.1.length
        = samples.length ∧
    (augment_data_with_dirichlet samples parameters model apl).1.2.length
        = samples.length ∧
    (∀ v ∈ (augment_data_with_dirichlet samples parameters model apl).1.1,
      v.length = d ∧ IsConvexCombo v parameters) ∧
    (∀ a ∈ (augment_data_with_dirichlet samples parameters model apl).1.2,
      0 ≤ a) := by
  obtain ⟨h1, h2, -⟩ :=
    dirichletFold_spec apl (samples.map (fun w => convexCombo w parameters))
      (([], []), model)
  have heq : augment_data_with_dirichlet samples parameters model apl
      = (samples.map (fun w => convexCombo w parameters)).foldl
          (dirichletStep apl) (([], []), model) := rfl
  rw [heq, h1, h2]
  refine ⟨by simp, by simp, ?_, ?_⟩
  · intro v hv
    simp only [List.nil_append] at hv
    obtain ⟨w, hw', rfl⟩ := List.mem_map.mp hv
    exact ⟨convexCombo_length w parameters d hne hd,
      ⟨w, (hw w hw').1, (hw w hw').2.1, (hw w hw').2.2, rfl⟩⟩
  · intro a ha
    simp only [List.nil_append] at ha
    obtain ⟨p, -, rfl⟩ := List.mem_map.mp ha
    exact hapl _

/-- Witness for `C8_dirichlet_augmentation`: two Dirichlet rows over two
stacked observations of length 2, with a constant APL estimator. -/
theorem C8_witness :
    ([[1, 2], [3, 4]] : List (List ℚ)) ≠ [] ∧
      ((augment_data_with_dirichlet [[1, 0], [0, 1]] [[1, 2], [3, 4]]
          ⟨[0, 0]⟩ (fun _ => 1)).1.1.length = 2 ∧
       (augment_data_with_dirichlet [[1, 0], [0, 1]] [[1, 2], [3, 4]]
          ⟨[0, 0]⟩ (fun _ => 1)).1.2.length = 2 ∧
       (∀ v ∈ (augment_data_with_dirichlet [[1, 0], [0, 1]] [[1, 2], [3, 4]]
          ⟨[0, 0]⟩ (fun _ => 1)).1.1,
         v.length = 2 ∧ IsConvexCombo v [[1, 2], [3, 4]]) ∧
       (∀ a ∈ (augment_data_with_dirichlet [[1, 0], [0, 1]] [[1, 2], [3, 4]]
          ⟨[0, 0]⟩ (fun _ => 1)).1.2, 0 ≤ a)) :=
  ⟨by decide,
    C8_dirichlet_augmentation [[1, 0], [0, 1]] [[1, 2], [3, 4]] ⟨[0, 0]⟩
      (fun _ => 1) 2 (by decide) (by decide) (by norm_num)
      (fun m => by norm_num)⟩

/-! ### Lemmas on list minimum, maximum and variance -/

/-- The running maximum is the start value or a list element. -/
theorem foldl_max_cases (l : List ℚ) :
    ∀ a : ℚ, l.foldl max a = a ∨ l.foldl max a ∈ l := by
  induction l with
  | nil => intro a; left; rfl
  | cons x xs ih =>
    intro a
    rw [List.foldl_cons]
    rcases ih (max a x) with h | h
    · rcases max_cases a x with ⟨he, -⟩ | ⟨he, -⟩
      · left; rw [h, he]
      · right; rw [h, he]; simp
    · right; simp [h]

/-- The running maximum bounds the start value and every element. -/
theorem le_foldl_max (l : List ℚ) :
    ∀ a x : ℚ, x = a ∨ x ∈ l → x ≤ l.foldl max a := by
  induction l with
  | nil =>
    rintro a x (rfl | hx)
    · exact le_refl x
    · simp at hx
  | cons y ys ih =>
    rintro a x (rfl | hx)
    · exact le_trans (le_max_left x y) (ih (max x y) _ (Or.inl rfl))
    · rcases List.mem_cons.mp hx with rfl | hmem
      · exact le_trans (le_max_right a x) (ih (max a x) _ (Or.inl rfl))
      · exact ih (max a y) x (Or.inr hmem)

/-- The running minimum is the start value or a list element. -/
theorem foldl_min_cases (l : List ℚ) :
    ∀ a : ℚ, l.foldl min a = a ∨ l.foldl min a ∈ l := by
  induction l with
  | nil => intro a; left; rfl
  | cons x xs ih =>
    intro a
    rw [List.foldl_cons]
    rcases ih (min a x) with h | h
    · rcases min_cases a x with ⟨he, -⟩ | ⟨he, -⟩
      · left; rw [h, he]
      · right; rw [h, he]; simp
    · right; simp [h]

/-- `listMax` of a nonempty list is one of its elements. -/
theorem listMax_mem (l : List ℚ) (h : l ≠ []) : listMax l ∈ l := by
  cases l with
  | nil => exact absurd rfl h
  | cons x xs =>
    rcases foldl_max_cases xs x with he | he
    · rw [listMax, he]; simp
    · rw [listMax]; simp [he]

/-- Every element is bounded by `listMax`. -/
theorem le_listMax (l : List ℚ) (x : ℚ) (hx : x ∈ l) : x ≤ listMax l := by
  cases l with
  | nil => simp at hx
  | cons y ys =>
    rcases List.mem_cons.mp hx with h | hmem
    · rw [listMax, h]
      exact le_foldl_max ys y y (Or.inl rfl)
    · exact le_foldl_max ys y x (Or.inr hmem)

/-- `listMin` of a nonempty list is one of its elements. -/
theorem listMin_mem (l : List ℚ) (h : l ≠ []) : listMin l ∈ l := by
  cases l with
  | nil => exact absurd rfl h
  | cons x xs =>
    rcases foldl_min_cases xs x with he | he
    · rw [listMin, he]; simp
    · rw [listMin]; simp [he]

/-- The population variance is nonnegative. -/
theorem listVariance_nonneg (l : List ℚ) : 0 ≤ listVariance l := by
  unfold listVariance listMean
  apply div_nonneg
  · refine List.sum_nonneg ?_
    intro x hx
    obtain ⟨y, -, rfl⟩ := List.mem_map.mp hx
    positivity
  · positivity

/-! ### Claim C10 -/

/-- The boolean mask of `withinOneStd`, as a plain `List.filter`. -/
theorem withinOneStd_eq (ccpAlphas : List ℚ) (cvScores : ℚ → List ℚ) :
    withinOneStd ccpAlphas cvScores
      = ccpAlphas.dropLast.filter
          (fun a => (foldMse cvScores a
              - listMin (ccpAlphas.dropLast.map (foldMse cvScores))) ^ 2
            ≤ listVariance (ccpAlphas.dropLast.map (foldMse cvScores))) := rfl

/-- Claim C10: `post_pruning` returns `0.0` (without raising) whenever
the pruning path leaves no alpha after dropping the final one; otherwise
it returns one of the remaining `ccp_alphas`, namely the largest one
whose cross-validated mean squared error is within one standard
deviation of the minimum. -/
theorem C10_post_pruning (ccpAlphas : List ℚ) (cvScores : ℚ → List ℚ) :
    (ccpAlphas.dropLast = [] → post_pruning ccpAlphas cvScores = 0) ∧
    (ccpAlphas.dropLast ≠ [] →
      post_pruning ccpAlphas cvScores ∈ ccpAlphas.dropLast ∧
      post_pruning ccpAlphas cvScores ∈ withinOneStd ccpAlphas cvScores ∧
      ∀ a ∈ withinOneStd ccpAlphas cvScores,
        a ≤ post_pruning ccpAlphas cvScores) := by
  constructor
  · intro h
    unfold post_pruning
    rw [if_pos h]
  · intro h
    have hmapne : ccpAlphas.dropLast.map (foldMse cvScores) ≠ [] := by
      intro hc
      exact h (List.map_eq_nil_iff.mp hc)
    obtain ⟨a0, ha0mem, ha0⟩ := List.mem_map.mp
      (listMin_mem (ccpAlphas.dropLast.map (foldMse cvScores)) hmapne)
    have ha0S : a0 ∈ withinOneStd ccpAlphas cvScores := by
      rw [withinOneStd_eq, List.mem_filter]
      refine ⟨ha0mem, ?_⟩
      simp only [decide_eq_true_eq]
      rw [ha0, sub_self]
      simpa using listVariance_nonneg (ccpAlphas.dropLast.map (foldMse cvScores))
    have hSne : withinOneStd ccpAlphas cvScores ≠ [] :=
      List.ne_nil_of_mem ha0S
    have hpp : post_pruning ccpAlphas cvScores
        = listMax (withinOneStd ccpAlphas cvScores) := by
      unfold post_pruning
      rw [if_neg h]
    have hmemS : post_pruning ccpAlphas cvScores
        ∈ withinOneStd ccpAlphas cvScores := by
      rw [hpp]; exact listMax_mem _ hSne
    refine ⟨?_, hmemS, ?_⟩
    · have hmemS2 := hmemS
      rw [withinOneStd_eq] at hmemS2
      exact (List.mem_filter.mp hmemS2).1
    · intro a ha
      rw [hpp]
      exact le_listMax _ a ha

/-- Witness for `C10_post_pruning`: both branches, on a singleton path
(only one alpha, dropped) and on a three-alpha path with constant
cross-validation scores. -/
theorem C10_witness :
    (([0] : List ℚ).dropLast = [] ∧ post_pruning [0] (fun _ => [-1]) = 0) ∧
    (([1, 2, 3] : List ℚ).dropLast ≠ [] ∧
      post_pruning [1, 2, 3] (fun _ => [-1]) ∈ ([1, 2, 3] : List ℚ).dropLast) :=
  ⟨⟨by decide, (C10_post_pruning [0] (fun _ => [-1])).1 (by decide)⟩,
   ⟨by decide, ((C10_post_pruning [1, 2, 3] (fun _ => [-1])).2 (by decide)).1⟩⟩

end TreeReg
